import Mathlib

/-!
Shallow embedding of the Optimus replay subsystem: the replay worker
(`Process` in the `job` package) and the postgres replay repository
(`fromTreeNode`, `toTreeNode`, `ToSpec`, `GetByID` in
`store/postgres/replay_repository.go`).  Timestamps (`time.Time`) are
modelled as integers, UUIDs as naturals, Go errors as strings, and the
external collaborators (scheduler, storage, job-spec adapter) as explicit
oracles supplied through environment records.
-/

namespace Optimus

/-- Timestamps (Go `time.Time`) are modelled as integers. -/
abbrev Time := Int

/-- Job payload carried by a tree node and by a replay spec.  The worker
reads only the job name (`treeNode.GetName()`) and the owning project
(`replaySpec.Job.Project`); both are modelled as plain values. -/
structure JobSpec where
  id : Nat
  name : String
  project : String
deriving DecidableEq, Repr

/-- Modelled from the spec: `core/tree.TreeNode` is not under src/.  A node
holds an opaque job payload (`Data`), an ordered sequence of dependents, and
a sorted run-set; `runs` here is the ascending list the set's `Values()`
returns (spec section 3: a set of distinct time instants, ascending,
de-duplicated). -/
inductive TreeNode where
  | mk (data : JobSpec) (dependents : List TreeNode) (runs : List Time)
deriving Repr

/-- Field accessor for the node's job payload. -/
def TreeNode.data : TreeNode → JobSpec
  | .mk d _ _ => d

/-- Field accessor for the node's ordered dependents. -/
def TreeNode.dependents : TreeNode → List TreeNode
  | .mk _ ds _ => ds

/-- Field accessor for the node's ascending run list (`Runs.Values()`). -/
def TreeNode.runs : TreeNode → List Time
  | .mk _ _ rs => rs

/-- Modelled from the spec: `TreeNode.GetName()` returns the name of the job
payload (spec section 3: jobIdentity carries the job name). -/
def TreeNode.getName (t : TreeNode) : String :=
  t.data.name

/-- Pre-order traversal of a tree: the node followed by the traversals of its
dependents in order. -/
def TreeNode.preorder : TreeNode → List TreeNode
  | .mk d deps rs => .mk d deps rs :: (deps.attach.map fun x => TreeNode.preorder x.1).flatten
decreasing_by
  have := List.sizeOf_lt_of_mem x.2
  simp only [TreeNode.mk.sizeOf_spec]
  omega

/-- Keep the first occurrence of each job name, dropping later duplicates;
`seen` accumulates the names already emitted. -/
def dedupByName : List TreeNode → List String → List TreeNode
  | [], _ => []
  | n :: ns, seen =>
    if n.getName ∈ seen then dedupByName ns seen
    else n :: dedupByName ns (n.getName :: seen)

/-- Modelled from the spec: `TreeNode.GetAllNodes()` is not under src/.  Spec
section 4.1: flatten produces root plus every transitive dependent, with every
node appearing exactly once, de-duplicated by job identity; the order across
the collection is not significant, so a pre-order listing is used here. -/
def TreeNode.getAllNodes (t : TreeNode) : List TreeNode :=
  dedupByName t.preorder []

/-- Runs-range computed inside the worker loop: `runTimes[0]` and
`runTimes[treeNode.Runs.Size()-1]`.  `none` models the Go index-out-of-range
panic when either access is out of bounds. -/
def TreeNode.runRange (t : TreeNode) : Option (Time × Time) :=
  match t.runs[0]?, t.runs[t.runs.length - 1]? with
  | some s, some e => some (s, e)
  | _, _ => none

/-- Replay failure message (`models.ReplayMessage` with fields `Type` and
`Message`). -/
structure ReplayMessage where
  type_ : String
  message : String
deriving DecidableEq, Repr

/-- Zero value `models.ReplayMessage` passed on the success paths. -/
def ReplayMessage.empty : ReplayMessage :=
  { type_ := "", message := "" }

/-- Modelled from the spec: the `models.ReplayStatus*` string constants are
not under src/; spec section 6 fixes the wire literals. -/
def ReplayStatusInProgress : String := "InProgress"

/-- Modelled from the spec: wire literal for the replayed status. -/
def ReplayStatusReplayed : String := "Replayed"

/-- Modelled from the spec: wire literal for the failed status. -/
def ReplayStatusFailed : String := "Failed"

/-- Modelled from the spec: wire literal for the created status. -/
def ReplayStatusCreated : String := "Created"

/-- Message type recorded on a failed clear: the `AirflowClearDagRunFailed`
constant of the worker file. -/
def AirflowClearDagRunFailed : String := "failed to clear airflow dag run"

/-- Durable replay record (`models.ReplaySpec`).  `executionTree` is `none`
when the Go pointer is nil. -/
structure ReplaySpec where
  id : Nat
  job : JobSpec
  startDate : Time
  endDate : Time
  status : String
  message : ReplayMessage
  executionTree : Option TreeNode
  createdAt : Time

/-- Zero value `models.ReplaySpec` (returned by the repository on several
error paths). -/
def ReplaySpec.zero : ReplaySpec :=
  { id := 0, job := { id := 0, name := "", project := "" }, startDate := 0,
    endDate := 0, status := "", message := ReplayMessage.empty,
    executionTree := none, createdAt := 0 }

/-- Error text of `errors.Wrapf(err, "error while clearing dag runs for job %s", name)`. -/
def wrapClear (cause : String) (jobName : String) : String :=
  "error while clearing dag runs for job " ++ jobName ++ ": " ++ cause

/-- Message recorded by the worker when a clear fails: type is the
`AirflowClearDagRunFailed` constant and the message is the wrapped error. -/
def failMessage (wrapped : String) : ReplayMessage :=
  { type_ := AirflowClearDagRunFailed, message := wrapped }

/-- One invocation of `scheduler.Clear(ctx, project, jobName, start, end)`,
recorded with its arguments. -/
structure ClearCall where
  project : String
  jobName : String
  startTime : Time
  endTime : Time
deriving DecidableEq, Repr

/-- Outcome of `Process`: a nil error, a non-nil error, or a Go runtime
fault — either the index-out-of-range fault of `runTimes[0]` /
`runTimes[Runs.Size()-1]`, or the nil dereference of a nil `ExecutionTree`
pointer. -/
inductive ProcResult where
  | ok
  | err (e : String)
  | oobCrash
  | nilCrash
deriving DecidableEq, Repr

/-- External collaborators of the worker: the scheduler's `Clear` (returns
`some e` on failure, `none` on success), the repository's `UpdateStatus`
keyed on its status and message arguments, and the repository's `GetByID`
for the processed request id. -/
structure Env where
  clear : String → String → Time → Time → Option String
  updateStatus : String → ReplayMessage → Option String
  getByID : Except String ReplaySpec

/-- Observable trace of one `Process` invocation: whether `GetByID` was
called, every `Clear` invocation with its arguments, every `UpdateStatus`
invocation with its status and message arguments, and the returned error. -/
structure ProcTrace where
  getByIDCalled : Bool
  clearCalls : List ClearCall
  statusUpdates : List (String × ReplayMessage)
  result : ProcResult
deriving DecidableEq, Repr

/-- Per-node loop of `Process` (lines 42-57 of the worker): for each node
compute the run range, call `Clear`, and on failure record the `Failed`
status (returning the update error if that write fails, else the wrapped
clear error).  Returns the clear calls made, the status updates attempted,
and the loop's outcome. -/
def processNodes (env : Env) (project : String) :
    List TreeNode → List ClearCall × List (String × ReplayMessage) × ProcResult
  | [] => ([], [], .ok)
  | node :: rest =>
    match node.runRange with
    | none => ([], [], .oobCrash)
    | some (s, e) =>
      let call : ClearCall := { project := project, jobName := node.getName,
                                startTime := s, endTime := e }
      match env.clear project node.getName s e with
      | none =>
        let r := processNodes env project rest
        (call :: r.1, r.2.1, r.2.2)
      | some cerr =>
        let wrapped := wrapClear cerr node.getName
        let msg := failMessage wrapped
        match env.updateStatus ReplayStatusFailed msg with
        | some uerr => ([call], [(ReplayStatusFailed, msg)], .err uerr)
        | none => ([call], [(ReplayStatusFailed, msg)], .err wrapped)

/-- The worker's `Process`: mark the request in progress, fetch the spec,
flatten the execution tree, clear every node, and finalize the status.  The
returned trace records the calls made to the collaborators.  A nil
`ExecutionTree` pointer makes the Go code dereference nil inside
`GetAllNodes`, modelled as a crash. -/
def Process (env : Env) : ProcTrace :=
  match env.updateStatus ReplayStatusInProgress ReplayMessage.empty with
  | some e =>
    { getByIDCalled := false, clearCalls := [],
      statusUpdates := [(ReplayStatusInProgress, ReplayMessage.empty)],
      result := .err e }
  | none =>
    match env.getByID with
    | .error e =>
      { getByIDCalled := true, clearCalls := [],
        statusUpdates := [(ReplayStatusInProgress, ReplayMessage.empty)],
        result := .err e }
    | .ok spec =>
      match spec.executionTree with
      | none =>
        { getByIDCalled := true, clearCalls := [],
          statusUpdates := [(ReplayStatusInProgress, ReplayMessage.empty)],
          result := .nilCrash }
      | some tree =>
        let r := processNodes env spec.job.project tree.getAllNodes
        match r.2.2 with
        | .ok =>
          match env.updateStatus ReplayStatusReplayed ReplayMessage.empty with
          | some e =>
            { getByIDCalled := true, clearCalls := r.1,
              statusUpdates := (ReplayStatusInProgress, ReplayMessage.empty) :: r.2.1
                ++ [(ReplayStatusReplayed, ReplayMessage.empty)],
              result := .err e }
          | none =>
            { getByIDCalled := true, clearCalls := r.1,
              statusUpdates := (ReplayStatusInProgress, ReplayMessage.empty) :: r.2.1
                ++ [(ReplayStatusReplayed, ReplayMessage.empty)],
              result := .ok }
        | other =>
          { getByIDCalled := true, clearCalls := r.1,
            statusUpdates := (ReplayStatusInProgress, ReplayMessage.empty) :: r.2.1,
            result := other }

/-- Serialized execution tree record of the postgres repository
(`postgres.ExecutionTree`): job payload, ordered dependents, and the run
timestamps as a plain list.  The Go `Data interface\x7b\x7d` field always
holds a `models.JobSpec` on the paths modelled here, so it is typed. -/
inductive ExecutionTree where
  | mk (data : JobSpec) (dependents : List ExecutionTree) (runs : List Time)
deriving Repr

/-- Zero value `postgres.ExecutionTree` (nil data decodes to the zero
job spec, nil slices to empty lists). -/
def ExecutionTree.zero : ExecutionTree :=
  .mk { id := 0, name := "", project := "" } [] []

/-- Serialization step of the repository (`fromTreeNode`): copy the payload,
recurse over the dependents in order, and copy the run-set's ascending
values into a plain list. -/
def fromTreeNode : TreeNode → ExecutionTree
  | .mk d deps rs => .mk d (deps.attach.map fun x => fromTreeNode x.1) rs
decreasing_by
  have := List.sizeOf_lt_of_mem x.2
  simp only [TreeNode.mk.sizeOf_spec]
  omega

/-- Modelled from the spec: `TreeNode.Runs.Add` of `core/tree` is not under
src/.  The run-set keeps distinct instants in ascending order (spec section
3), so adding inserts in sorted position and drops duplicates. -/
def runsAdd : List Time → Time → List Time
  | [], t => [t]
  | x :: xs, t =>
    if t < x then t :: x :: xs
    else if t = x then x :: xs
    else x :: runsAdd xs t

/-- Deserialization step of the repository (`toTreeNode`): decode the
payload, rebuild a fresh node, append each dependent in order, and add each
run timestamp to the node's run-set in list order. -/
def toTreeNode : ExecutionTree → TreeNode
  | .mk d deps rs => TreeNode.mk d (deps.attach.map fun x => toTreeNode x.1) (rs.foldl runsAdd [])
decreasing_by
  have := List.sizeOf_lt_of_mem x.2
  simp only [ExecutionTree.mk.sizeOf_spec]
  omega

/-- Stored JSON payload of type `α`: either bytes that decode to a value, or
corrupt bytes on which `json.Unmarshal` fails. -/
inductive Blob (α : Type) where
  | ok (a : α)
  | corrupt
deriving DecidableEq, Repr

/-- Behaviour of `json.Unmarshal` on a stored payload: a decoded value, or an
error for corrupt bytes. -/
def jsonUnmarshal {α : Type} : Blob α → Except String α
  | .ok a => .ok a
  | .corrupt => .error "invalid character in json payload"

/-- Database row of a replay (`postgres.Replay`).  The `executionTree`
column is `none` when the stored blob is SQL null. -/
structure Replay where
  id : Nat
  jobID : Nat
  startDate : Time
  endDate : Time
  status : String
  message : Blob ReplayMessage
  executionTree : Option (Blob ExecutionTree)
  createdAt : Time
  updatedAt : Time

/-- Row-to-spec reconstruction (`Replay.ToSpec`): unmarshal the message —
the Go code returns a zero spec and a NIL error when this unmarshal fails —
then unmarshal the execution tree when the column is non-null (this failure
is returned), and assemble the spec with the decoded tree. -/
def Replay.toSpec (p : Replay) (jobSpec : JobSpec) : Except String ReplaySpec :=
  match jsonUnmarshal p.message with
  | .error _ => .ok ReplaySpec.zero
  | .ok message =>
    let decoded : Except String ExecutionTree :=
      match p.executionTree with
      | none => .ok ExecutionTree.zero
      | some blob => jsonUnmarshal blob
    match decoded with
    | .error e => .error e
    | .ok et =>
      .ok { id := p.id, job := jobSpec, status := p.status,
            startDate := p.startDate, endDate := p.endDate,
            message := message, executionTree := some (toTreeNode et),
            createdAt := p.createdAt }

/-- Sentinel of `store.ErrResourceNotFound` returned when no row matches. -/
def ErrResourceNotFound : String := "resource not found"

/-- Error sentinel of `gorm.ErrRecordNotFound`. -/
def ErrRecordNotFound : String := "record not found"

/-- Storage-side collaborators of `GetByID`: the row lookup, the job-spec
adapter, and the project-with-secrets resolution. -/
structure RepoEnv where
  find : Except String Replay
  adaptJob : Except String JobSpec
  projectWithSecrets : Except String String

/-- The repository's `GetByID`: look the row up (mapping a record-not-found
lookup error to the not-found sentinel), adapt the job spec, resolve the
project with its secrets, and reconstruct the replay spec via `toSpec`. -/
def getByID (env : RepoEnv) : Except String ReplaySpec :=
  match env.find with
  | .error e => .error (if e = ErrRecordNotFound then ErrResourceNotFound else e)
  | .ok r =>
    match env.adaptJob with
    | .error e => .error e
    | .ok jobSpec =>
      match env.projectWithSecrets with
      | .error e => .error e
      | .ok proj => r.toSpec { jobSpec with project := proj }

/-- Clear call the worker issues for a node whose run range is defined: the
root job's project, the node's name, and the first and last run times.  The
fallback arguments for a node with no runs are never reached on the paths
where this is used. -/
def callOf (project : String) (n : TreeNode) : ClearCall :=
  match n.runRange with
  | some (s, e) => { project := project, jobName := n.getName, startTime := s, endTime := e }
  | none => { project := project, jobName := n.getName, startTime := 0, endTime := 0 }

/-- The scheduler clear succeeds for this node: its run range is defined and
`clear` returns a nil error on the node's call. -/
def clearSucceeds (env : Env) (project : String) (n : TreeNode) : Prop :=
  ∃ s e, n.runRange = some (s, e) ∧ env.clear project n.getName s e = none

/-- Strict ascending order of a run list, as a boolean. -/
def sortedStrict : List Time → Bool
  | [] => true
  | [_] => true
  | a :: b :: rest => a < b && sortedStrict (b :: rest)

/-- A tree whose every node carries a strictly ascending run list: the
invariant the sorted run-set guarantees (spec section 3). -/
def TreeNode.runsSorted : TreeNode → Bool
  | .mk _ deps rs => sortedStrict rs && (deps.attach.map fun x => TreeNode.runsSorted x.1).all id
decreasing_by
  have := List.sizeOf_lt_of_mem x.2
  simp only [TreeNode.mk.sizeOf_spec]
  omega

/-! Concrete fixtures used to instantiate the theorems below (scenario B of
the spec: root job "ingest" with dependent "transform"). -/

/-- Root job of the fixture replay. -/
def jobIngest : JobSpec := { id := 1, name := "ingest", project := "projA" }

/-- Dependent job of the fixture replay. -/
def jobTransform : JobSpec := { id := 2, name := "transform", project := "projA" }

/-- Leaf node for the dependent job, runs at 10 and 20. -/
def nodeTransform : TreeNode := .mk jobTransform [] [10, 20]

/-- Root node for the fixture tree, runs at 10 and 20. -/
def nodeIngest : TreeNode := .mk jobIngest [nodeTransform] [10, 20]

/-- Fixture replay spec holding the two-node tree. -/
def specB : ReplaySpec :=
  { id := 7, job := jobIngest, startDate := 0, endDate := 100,
    status := ReplayStatusCreated, message := ReplayMessage.empty,
    executionTree := some nodeIngest, createdAt := 0 }

/-- Environment where every collaborator succeeds. -/
def envAllOk : Env :=
  { clear := fun _ _ _ _ => none,
    updateStatus := fun _ _ => none,
    getByID := .ok specB }

/-- Environment where the clear of "transform" fails and every status update
succeeds. -/
def envTransformFails : Env :=
  { clear := fun _ name _ _ => if name = "transform" then some "boom" else none,
    updateStatus := fun _ _ => none,
    getByID := .ok specB }

/-- Environment where the clear of "transform" fails and the `Failed` status
update also fails. -/
def envFailedUpdFails : Env :=
  { clear := fun _ name _ _ => if name = "transform" then some "boom" else none,
    updateStatus := fun st _ => if st = ReplayStatusFailed then some "db down" else none,
    getByID := .ok specB }

/-- Environment where the initial `InProgress` status update fails. -/
def envInProgressFails : Env :=
  { clear := fun _ _ _ _ => none,
    updateStatus := fun st _ => if st = ReplayStatusInProgress then some "storage unavailable" else none,
    getByID := .ok specB }

/-- Database row whose message payload is corrupt bytes. -/
def rowCorruptMessage : Replay :=
  { id := 7, jobID := 1, startDate := 0, endDate := 100,
    status := ReplayStatusCreated, message := .corrupt,
    executionTree := some (.ok (fromTreeNode nodeIngest)),
    createdAt := 0, updatedAt := 0 }

/-- Storage environment that finds the corrupt-message row and succeeds at
job and project reconstruction. -/
def repoEnvCorruptMessage : RepoEnv :=
  { find := .ok rowCorruptMessage,
    adaptJob := .ok jobIngest,
    projectWithSecrets := .ok "projA" }

/-! Helper lemmas. -/

/-- Equation lemma for `fromTreeNode` in plain `List.map` form. -/
theorem fromTreeNode_mk (d : JobSpec) (deps : List TreeNode) (rs : List Time) :
    fromTreeNode (.mk d deps rs) = .mk d (deps.map fromTreeNode) rs := by
  rw [fromTreeNode]
  simp [List.attach_map_coe]

/-- Equation lemma for `toTreeNode` in plain `List.map` form. -/
theorem toTreeNode_mk (d : JobSpec) (deps : List ExecutionTree) (rs : List Time) :
    toTreeNode (.mk d deps rs) = TreeNode.mk d (deps.map toTreeNode) (rs.foldl runsAdd []) := by
  rw [toTreeNode]
  simp [List.attach_map_coe]

/-- Equation lemma for `TreeNode.preorder` in plain `List.map` form. -/
theorem preorder_mk (d : JobSpec) (deps : List TreeNode) (rs : List Time) :
    TreeNode.preorder (.mk d deps rs) = .mk d deps rs :: (deps.map TreeNode.preorder).flatten := by
  rw [TreeNode.preorder]
  simp [List.attach_map_coe]

/-- Mapping a boolean test and then checking all results checks the test on
all members. -/
theorem all_map_id {α : Type} {l : List α} {f : α → Bool} : (l.map f).all id = l.all f := by
  induction l with
  | nil => rfl
  | cons a as ih => simp [ih]

/-- Equation lemma for `TreeNode.runsSorted` in plain `List.all` form. -/
theorem runsSorted_mk (d : JobSpec) (deps : List TreeNode) (rs : List Time) :
    TreeNode.runsSorted (.mk d deps rs) = (sortedStrict rs && deps.all TreeNode.runsSorted) := by
  rw [TreeNode.runsSorted]
  simp only [List.attach_map_coe, all_map_id]

/-- Induction principle for trees that provides the inductive hypothesis for
every member of the dependents list. -/
theorem TreeNode.myInd (P : TreeNode → Prop)
    (step : ∀ d deps rs, (∀ t ∈ deps, P t) → P (TreeNode.mk d deps rs)) :
    ∀ t, P t
  | .mk d deps rs => step d deps rs (fun t ht => TreeNode.myInd P step t)
decreasing_by
  have := List.sizeOf_lt_of_mem ht
  simp only [TreeNode.mk.sizeOf_spec]
  omega

/-- Unfolding of `sortedStrict` on a list with at least two elements. -/
theorem sortedStrict_cons {a b : Time} {l : List Time} :
    sortedStrict (a :: b :: l) = true ↔ a < b ∧ sortedStrict (b :: l) = true := by
  simp [sortedStrict]

/-- The tail of a strictly ascending list is strictly ascending. -/
theorem sortedStrict_tail {a : Time} {l : List Time} (h : sortedStrict (a :: l) = true) :
    sortedStrict l = true := by
  cases l with
  | nil => rfl
  | cons b rest => exact (sortedStrict_cons.mp h).2

/-- The head of a strictly ascending list is below every later element. -/
theorem sortedStrict_head_lt {a : Time} {l : List Time} (h : sortedStrict (a :: l) = true) :
    ∀ x ∈ l, a < x := by
  induction l generalizing a with
  | nil => simp
  | cons b rest ih =>
    intro x hx
    obtain ⟨hab, hbrest⟩ := sortedStrict_cons.mp h
    rcases List.mem_cons.mp hx with hxb | hxrest
    · exact hxb ▸ hab
    · exact lt_trans hab (ih hbrest x hxrest)

/-- Adding an element above every element of the set appends it at the
end. -/
theorem runsAdd_of_lt {l : List Time} {t : Time} (h : ∀ x ∈ l, x < t) :
    runsAdd l t = l ++ [t] := by
  induction l with
  | nil => rfl
  | cons a as ih =>
    have ha : a < t := h a (by simp)
    rw [runsAdd, if_neg (lt_asymm ha), if_neg ha.ne', ih (fun x hx => h x (by simp [hx]))]
    rfl

/-- Folding `runsAdd` over a strictly ascending list whose elements all lie
above the accumulator appends the list to the accumulator. -/
theorem foldl_runsAdd_of_sorted :
    ∀ (l acc : List Time), sortedStrict l = true → (∀ x ∈ acc, ∀ y ∈ l, x < y) →
      l.foldl runsAdd acc = acc ++ l := by
  intro l
  induction l with
  | nil => simp
  | cons b bs ih =>
    intro acc hs hlt
    rw [List.foldl_cons, runsAdd_of_lt (fun x hx => hlt x hx b (by simp)),
      ih (acc ++ [b]) (sortedStrict_tail hs) ?later]
    · simp
    case later =>
      intro x hx y hy
      rcases List.mem_append.mp hx with hacc | hxb
      · exact hlt x hacc y (by simp [hy])
      · have : x = b := by simpa using hxb
        exact this ▸ sortedStrict_head_lt hs y hy

/-- Rebuilding a sorted run-set from its ascending value list reproduces the
list. -/
theorem foldl_runsAdd_nil {l : List Time} (hs : sortedStrict l = true) :
    l.foldl runsAdd [] = l := by
  simpa using foldl_runsAdd_of_sorted l [] hs (by simp)

/-- C5: for every constructed execution tree (every node carrying the
sorted-set invariant of ascending, de-duplicated runs), serializing with the
repository's tree encoding `fromTreeNode` and deserializing back with
`toTreeNode` yields a tree structurally and value-equal to the original:
same node payloads, same dependent order, same run timestamps in the same
order. -/
theorem C5_tree_roundtrip :
    ∀ t : TreeNode, t.runsSorted = true → toTreeNode (fromTreeNode t) = t := by
  intro t
  induction t using TreeNode.myInd with
  | step d deps rs ih =>
    intro h
    rw [runsSorted_mk, Bool.and_eq_true] at h
    obtain ⟨hs, hdeps⟩ := h
    rw [fromTreeNode_mk, toTreeNode_mk, List.map_map, foldl_runsAdd_nil hs]
    have hmap : deps.map (toTreeNode ∘ fromTreeNode) = deps := by
      have hpt : ∀ x ∈ deps, (toTreeNode ∘ fromTreeNode) x = id x := by
        intro x hx
        have hxs : TreeNode.runsSorted x = true := by
          simpa using List.all_eq_true.mp hdeps x hx
        simpa using ih x hx hxs
      rw [List.map_congr_left hpt, List.map_id]
    rw [hmap]

/-- Witness for C5 at the concrete two-node fixture tree. -/
theorem C5_tree_roundtrip_witness :
    toTreeNode (fromTreeNode nodeIngest) = nodeIngest :=
  C5_tree_roundtrip nodeIngest (by
    simp [nodeIngest, nodeTransform, runsSorted_mk, sortedStrict])

/-- Access to index 0 of a non-empty list yields its head. -/
theorem getElem?_zero_of_ne_nil {l : List Time} (h : l ≠ []) : l[0]? = some (l.head h) := by
  cases l with
  | nil => exact absurd rfl h
  | cons a as => simp

/-- Access to index `length - 1` of a non-empty list yields its last
element. -/
theorem getElem?_last_of_ne_nil : ∀ {l : List Time} (h : l ≠ []), l[l.length - 1]? = some (l.getLast h)
  | [_], _ => rfl
  | a :: b :: bs, _ => by
    have ih := getElem?_last_of_ne_nil (show b :: bs ≠ [] by simp)
    simp only [List.length_cons, Nat.add_sub_cancel] at ih ⊢
    rw [List.getElem?_cons_succ, ih]
    rw [List.getLast_cons (show b :: bs ≠ [] by simp)]

/-- Run range of a node with a non-empty run list: first and last run
times. -/
theorem runRange_eq_of_ne_nil {n : TreeNode} (h : n.runs ≠ []) :
    n.runRange = some (n.runs.head h, n.runs.getLast h) := by
  rw [TreeNode.runRange, getElem?_zero_of_ne_nil h, getElem?_last_of_ne_nil h]

/-- Processing a prefix of nodes whose clears all succeed records their
calls in order and continues with the remaining nodes. -/
theorem processNodes_ok_append (env : Env) (project : String) :
    ∀ (pre rest : List TreeNode), (∀ n ∈ pre, clearSucceeds env project n) →
      processNodes env project (pre ++ rest) =
        (pre.map (callOf project) ++ (processNodes env project rest).1,
         (processNodes env project rest).2.1,
         (processNodes env project rest).2.2) := by
  intro pre
  induction pre with
  | nil => intro rest _; simp
  | cons n ns ih =>
    intro rest h
    obtain ⟨s, e, hr, hc⟩ := h n (by simp)
    simp only [List.cons_append, processNodes, hr, hc, List.append_eq]
    rw [ih rest (fun m hm => h m (by simp [hm]))]
    simp [callOf, hr]

/-- Processing a node whose clear fails, when the `Failed` status update
succeeds, records the single call and the failed update and returns the
wrapped clear error. -/
theorem processNodes_fail_updOk (env : Env) (project : String) (node : TreeNode)
    (rest : List TreeNode) (s e : Time) (cerr : String)
    (hr : node.runRange = some (s, e))
    (hc : env.clear project node.getName s e = some cerr)
    (hu : env.updateStatus ReplayStatusFailed (failMessage (wrapClear cerr node.getName)) = none) :
    processNodes env project (node :: rest) =
      ([{ project := project, jobName := node.getName, startTime := s, endTime := e }],
       [(ReplayStatusFailed, failMessage (wrapClear cerr node.getName))],
       .err (wrapClear cerr node.getName)) := by
  simp only [processNodes, hr, hc, hu]

/-- Processing a node whose clear fails, when the `Failed` status update
also fails, records the single call and the attempted update and returns the
update error. -/
theorem processNodes_fail_updErr (env : Env) (project : String) (node : TreeNode)
    (rest : List TreeNode) (s e : Time) (cerr uerr : String)
    (hr : node.runRange = some (s, e))
    (hc : env.clear project node.getName s e = some cerr)
    (hu : env.updateStatus ReplayStatusFailed (failMessage (wrapClear cerr node.getName)) = some uerr) :
    processNodes env project (node :: rest) =
      ([{ project := project, jobName := node.getName, startTime := s, endTime := e }],
       [(ReplayStatusFailed, failMessage (wrapClear cerr node.getName))],
       .err uerr) := by
  simp only [processNodes, hr, hc, hu]

/-- Every clear call the loop records carries the project it was passed. -/
theorem processNodes_project (env : Env) (project : String) :
    ∀ (nodes : List TreeNode) (c : ClearCall),
      c ∈ (processNodes env project nodes).1 → c.project = project := by
  intro nodes
  induction nodes with
  | nil => simp [processNodes]
  | cons n ns ih =>
    intro c hc
    cases hrr : n.runRange with
    | none => simp [processNodes, hrr] at hc
    | some se =>
      obtain ⟨s, e⟩ := se
      cases hcl : env.clear project n.getName s e with
      | none =>
        simp only [processNodes, hrr, hcl, List.mem_cons] at hc
        rcases hc with hceq | hcm
        · rw [hceq]
        · exact ih c hcm
      | some cerr =>
        cases hu : env.updateStatus ReplayStatusFailed (failMessage (wrapClear cerr n.getName)) with
        | none =>
          simp only [processNodes, hrr, hcl, hu, List.mem_singleton] at hc
          rw [hc]
        | some uerr =>
          simp only [processNodes, hrr, hcl, hu, List.mem_singleton] at hc
          rw [hc]

/-- When every node of the list has a non-empty run list, the loop never
reaches the index-out-of-range fault. -/
theorem processNodes_no_oob (env : Env) (project : String) :
    ∀ nodes : List TreeNode, (∀ n ∈ nodes, n.runs ≠ []) →
      (processNodes env project nodes).2.2 ≠ .oobCrash := by
  intro nodes
  induction nodes with
  | nil => intro _; simp [processNodes]
  | cons n ns ih =>
    intro h
    have hne : n.runs ≠ [] := h n (by simp)
    rw [processNodes, runRange_eq_of_ne_nil hne]
    cases hcl : env.clear project n.getName (n.runs.head hne) (n.runs.getLast hne) with
    | none =>
      simp only [hcl]
      simpa using ih (fun m hm => h m (by simp [hm]))
    | some cerr =>
      cases hu : env.updateStatus ReplayStatusFailed (failMessage (wrapClear cerr n.getName)) with
      | none => simp [hcl, hu]
      | some uerr => simp [hcl, hu]

/-- The job name of a recorded call is the node's name, whatever the run
range. -/
theorem callOf_jobName (p : String) (n : TreeNode) : (callOf p n).jobName = n.getName := by
  cases h : n.runRange with
  | none => simp [callOf, h]
  | some se => obtain ⟨s, e⟩ := se; simp [callOf, h]

/-- When the initial `InProgress` update fails, `Process` stops there. -/
theorem Process_updErr {env : Env} {e : String}
    (h : env.updateStatus ReplayStatusInProgress ReplayMessage.empty = some e) :
    Process env =
      { getByIDCalled := false, clearCalls := [],
        statusUpdates := [(ReplayStatusInProgress, ReplayMessage.empty)],
        result := .err e } := by
  rw [Process]
  simp only [h]

/-- When the loop ends in an error or a fault, `Process` propagates the
loop's calls, updates and outcome. -/
theorem Process_loop_other {env : Env} {spec : ReplaySpec} {tree : TreeNode}
    (h1 : env.updateStatus ReplayStatusInProgress ReplayMessage.empty = none)
    (h2 : env.getByID = .ok spec)
    (h3 : spec.executionTree = some tree)
    {calls : List ClearCall} {upds : List (String × ReplayMessage)} {res : ProcResult}
    (hloop : processNodes env spec.job.project tree.getAllNodes = (calls, upds, res))
    (hres : res ≠ .ok) :
    Process env =
      { getByIDCalled := true, clearCalls := calls,
        statusUpdates := (ReplayStatusInProgress, ReplayMessage.empty) :: upds,
        result := res } := by
  rw [Process]
  simp only [h1, h2, h3, hloop]

/-- When the loop succeeds, `Process` attempts the final `Replayed` update
and returns its outcome. -/
theorem Process_loop_ok {env : Env} {spec : ReplaySpec} {tree : TreeNode}
    (h1 : env.updateStatus ReplayStatusInProgress ReplayMessage.empty = none)
    (h2 : env.getByID = .ok spec)
    (h3 : spec.executionTree = some tree)
    {calls : List ClearCall} {upds : List (String × ReplayMessage)}
    (hloop : processNodes env spec.job.project tree.getAllNodes = (calls, upds, .ok)) :
    Process env =
      { getByIDCalled := true, clearCalls := calls,
        statusUpdates := (ReplayStatusInProgress, ReplayMessage.empty) :: upds
          ++ [(ReplayStatusReplayed, ReplayMessage.empty)],
        result := match env.updateStatus ReplayStatusReplayed ReplayMessage.empty with
                  | none => .ok
                  | some e2 => .err e2 } := by
  rw [Process]
  simp only [h1, h2, h3, hloop]
  cases h4 : env.updateStatus ReplayStatusReplayed ReplayMessage.empty with
  | none => simp only [h4]
  | some e2 => simp only [h4]

/-- Flatten of the fixture tree: the root followed by its dependent. -/
theorem getAllNodes_fixture : nodeIngest.getAllNodes = [nodeIngest, nodeTransform] := by
  simp [TreeNode.getAllNodes, nodeIngest, nodeTransform, preorder_mk, dedupByName,
    TreeNode.getName, TreeNode.data, jobIngest, jobTransform]

/-- C1: when node k (after the prefix `pre` of the visitation order, all of
whose clears succeed) is the first node whose scheduler `Clear` fails,
`Process` invokes `Clear` exactly for the nodes before k and for k itself and
never for any node strictly after k, updates the replay's status to `Failed`
with a message referencing node k's job name and the error text, and returns
the wrapped clear error. -/
theorem C1_fail_fast (env : Env) (spec : ReplaySpec) (tree : TreeNode)
    (pre post : List TreeNode) (nk : TreeNode) (s e : Time) (cerr : String)
    (h1 : env.updateStatus ReplayStatusInProgress ReplayMessage.empty = none)
    (h2 : env.getByID = .ok spec)
    (h3 : spec.executionTree = some tree)
    (h4 : tree.getAllNodes = pre ++ nk :: post)
    (h5 : ∀ n ∈ pre, clearSucceeds env spec.job.project n)
    (h6 : nk.runRange = some (s, e))
    (h7 : env.clear spec.job.project nk.getName s e = some cerr)
    (h8 : env.updateStatus ReplayStatusFailed (failMessage (wrapClear cerr nk.getName)) = none) :
    Process env =
      { getByIDCalled := true,
        clearCalls := pre.map (callOf spec.job.project) ++
          [{ project := spec.job.project, jobName := nk.getName, startTime := s, endTime := e }],
        statusUpdates := [(ReplayStatusInProgress, ReplayMessage.empty),
          (ReplayStatusFailed, failMessage (wrapClear cerr nk.getName))],
        result := .err (wrapClear cerr nk.getName) } ∧
    (Process env).clearCalls.map ClearCall.jobName = (pre ++ [nk]).map TreeNode.getName ∧
    (failMessage (wrapClear cerr nk.getName)).message =
      "error while clearing dag runs for job " ++ nk.getName ++ ": " ++ cerr := by
  have hloop : processNodes env spec.job.project tree.getAllNodes =
      (pre.map (callOf spec.job.project) ++
        [{ project := spec.job.project, jobName := nk.getName, startTime := s, endTime := e }],
       [(ReplayStatusFailed, failMessage (wrapClear cerr nk.getName))],
       .err (wrapClear cerr nk.getName)) := by
    rw [h4, processNodes_ok_append env spec.job.project pre (nk :: post) h5,
      processNodes_fail_updOk env spec.job.project nk post s e cerr h6 h7 h8]
  have hmain := Process_loop_other h1 h2 h3 hloop (by simp)
  refine ⟨hmain, ?_, rfl⟩
  rw [hmain]
  simp only [List.map_append, List.map_map, List.map_cons, List.map_nil]
  congr 1
  exact List.map_congr_left fun n _ => callOf_jobName spec.job.project n

/-- Witness for C1 at the fixture where the clear of "transform" fails after
"ingest" cleared. -/
theorem C1_fail_fast_witness :
    (Process envTransformFails).result = .err (wrapClear "boom" "transform") ∧
    (Process envTransformFails).clearCalls.map ClearCall.jobName = ["ingest", "transform"] := by
  have h := C1_fail_fast envTransformFails specB nodeIngest [nodeIngest] [] nodeTransform
    10 20 "boom" rfl rfl rfl (by rw [getAllNodes_fixture]; rfl)
    (by
      intro n hn
      have hn' : n = nodeIngest := by simpa using hn
      exact hn' ▸ ⟨10, 20, by decide, rfl⟩)
    (by decide) rfl rfl
  constructor
  · rw [h.1]
    rfl
  · rw [h.2.1]
    decide

/-- C2: when the scheduler's `Clear` succeeds for every node of the
flattened execution tree, `Process` calls `UpdateStatus` with status
`Replayed` and an empty message, returns nil when that update succeeds, and
returns the update error when that final status update fails. -/
theorem C2_all_success (env : Env) (spec : ReplaySpec) (tree : TreeNode)
    (h1 : env.updateStatus ReplayStatusInProgress ReplayMessage.empty = none)
    (h2 : env.getByID = .ok spec)
    (h3 : spec.executionTree = some tree)
    (h5 : ∀ n ∈ tree.getAllNodes, clearSucceeds env spec.job.project n) :
    Process env =
      { getByIDCalled := true,
        clearCalls := tree.getAllNodes.map (callOf spec.job.project),
        statusUpdates := [(ReplayStatusInProgress, ReplayMessage.empty),
          (ReplayStatusReplayed, ReplayMessage.empty)],
        result := match env.updateStatus ReplayStatusReplayed ReplayMessage.empty with
                  | none => .ok
                  | some e2 => .err e2 } := by
  have hloop : processNodes env spec.job.project tree.getAllNodes =
      (tree.getAllNodes.map (callOf spec.job.project), [], .ok) := by
    have h := processNodes_ok_append env spec.job.project tree.getAllNodes [] h5
    simpa [processNodes] using h
  exact Process_loop_ok h1 h2 h3 hloop

/-- Witness for C2 at the fixture where every clear succeeds. -/
theorem C2_all_success_witness :
    (Process envAllOk).result = .ok ∧
    (Process envAllOk).statusUpdates = [(ReplayStatusInProgress, ReplayMessage.empty),
      (ReplayStatusReplayed, ReplayMessage.empty)] := by
  have h := C2_all_success envAllOk specB nodeIngest rfl rfl rfl
    (by
      intro n hn
      rw [getAllNodes_fixture] at hn
      simp only [List.mem_cons, List.not_mem_nil, or_false] at hn
      rcases hn with h | h
      · exact h ▸ ⟨10, 20, by decide, rfl⟩
      · exact h ▸ ⟨10, 20, by decide, rfl⟩)
  rw [h]
  exact ⟨rfl, rfl⟩

/-- C3: when a node's clear fails and the `UpdateStatus` call recording the
`Failed` status itself fails, `Process` returns the `UpdateStatus` error,
not the original scheduler-clear error. -/
theorem C3_update_error_masks_clear_error (env : Env) (spec : ReplaySpec) (tree : TreeNode)
    (pre post : List TreeNode) (nk : TreeNode) (s e : Time) (cerr uerr : String)
    (h1 : env.updateStatus ReplayStatusInProgress ReplayMessage.empty = none)
    (h2 : env.getByID = .ok spec)
    (h3 : spec.executionTree = some tree)
    (h4 : tree.getAllNodes = pre ++ nk :: post)
    (h5 : ∀ n ∈ pre, clearSucceeds env spec.job.project n)
    (h6 : nk.runRange = some (s, e))
    (h7 : env.clear spec.job.project nk.getName s e = some cerr)
    (h8 : env.updateStatus ReplayStatusFailed (failMessage (wrapClear cerr nk.getName)) = some uerr) :
    (Process env).result = .err uerr ∧
    (uerr ≠ wrapClear cerr nk.getName →
      (Process env).result ≠ .err (wrapClear cerr nk.getName)) := by
  have hloop : processNodes env spec.job.project tree.getAllNodes =
      (pre.map (callOf spec.job.project) ++
        [{ project := spec.job.project, jobName := nk.getName, startTime := s, endTime := e }],
       [(ReplayStatusFailed, failMessage (wrapClear cerr nk.getName))],
       .err uerr) := by
    rw [h4, processNodes_ok_append env spec.job.project pre (nk :: post) h5,
      processNodes_fail_updErr env spec.job.project nk post s e cerr uerr h6 h7 h8]
  have hmain := Process_loop_other h1 h2 h3 hloop (by simp)
  constructor
  · rw [hmain]
  · intro hne hcontra
    rw [hmain] at hcontra
    exact hne (ProcResult.err.inj hcontra)

/-- Witness for C3 at the fixture where both the clear of "transform" and
the `Failed` status update fail. -/
theorem C3_update_error_masks_clear_error_witness :
    (Process envFailedUpdFails).result = .err "db down" ∧
    (Process envFailedUpdFails).result ≠ .err (wrapClear "boom" "transform") := by
  have h := C3_update_error_masks_clear_error envFailedUpdFails specB nodeIngest
    [nodeIngest] [] nodeTransform 10 20 "boom" "db down" rfl rfl rfl
    (by rw [getAllNodes_fixture]; rfl)
    (by
      intro n hn
      have hn' : n = nodeIngest := by simpa using hn
      exact hn' ▸ ⟨10, 20, by decide, rfl⟩)
    (by decide) rfl rfl
  exact ⟨h.1, h.2 (by decide)⟩

/-- C4: when the initial `UpdateStatus` call marking the request
`InProgress` fails, `Process` returns that error immediately: `Clear` is
never invoked, `GetByID` is never called, and no further status update is
attempted. -/
theorem C4_inprogress_failure_aborts (env : Env) (e : String)
    (h : env.updateStatus ReplayStatusInProgress ReplayMessage.empty = some e) :
    Process env =
      { getByIDCalled := false, clearCalls := [],
        statusUpdates := [(ReplayStatusInProgress, ReplayMessage.empty)],
        result := .err e } :=
  Process_updErr h

/-- Witness for C4 at the fixture environment whose `InProgress` update
fails. -/
theorem C4_inprogress_failure_aborts_witness :
    Process envInProgressFails =
      { getByIDCalled := false, clearCalls := [],
        statusUpdates := [(ReplayStatusInProgress, ReplayMessage.empty)],
        result := .err "storage unavailable" } :=
  C4_inprogress_failure_aborts envInProgressFails "storage unavailable" rfl

/-- C7 counterexample: at the concrete run where the clear of "transform"
fails, the message recorded with the `Failed` status has kind
"failed to clear airflow dag run" — no recorded failure message has kind
"scheduler clear failed". -/
theorem C7_kind_counterexample :
    (Process envTransformFails).statusUpdates =
      [(ReplayStatusInProgress, ReplayMessage.empty),
       (ReplayStatusFailed,
        { type_ := "failed to clear airflow dag run",
          message := wrapClear "boom" "transform" })] ∧
    ((Process envTransformFails).statusUpdates.all
      fun u => decide (u.2.type_ ≠ "scheduler clear failed")) = true := by
  have hpre : ∀ n ∈ [nodeIngest], clearSucceeds envTransformFails specB.job.project n := by
    intro n hn
    have hn' : n = nodeIngest := by simpa using hn
    exact hn' ▸ ⟨10, 20, by decide, rfl⟩
  have hloop : processNodes envTransformFails specB.job.project nodeIngest.getAllNodes =
      ([nodeIngest].map (callOf specB.job.project) ++
        [{ project := specB.job.project, jobName := nodeTransform.getName,
           startTime := 10, endTime := 20 }],
       [(ReplayStatusFailed, failMessage (wrapClear "boom" nodeTransform.getName))],
       .err (wrapClear "boom" nodeTransform.getName)) := by
    rw [getAllNodes_fixture,
      show [nodeIngest, nodeTransform] = [nodeIngest] ++ nodeTransform :: [] from rfl,
      processNodes_ok_append envTransformFails specB.job.project [nodeIngest]
        (nodeTransform :: []) hpre,
      processNodes_fail_updOk envTransformFails specB.job.project nodeTransform []
        10 20 "boom" (by decide) rfl rfl]
  have hmain := Process_loop_other rfl rfl rfl hloop (by simp)
  rw [hmain]
  exact ⟨rfl, by decide⟩

/-- C7 (amended): whenever a node's clear call fails, the failure message
recorded into the replay's `Failed` status has kind exactly
"failed to clear airflow dag run" (the `AirflowClearDagRunFailed` constant)
and a detail mentioning the failing node's job name. -/
theorem C7_failure_message_kind (env : Env) (spec : ReplaySpec) (tree : TreeNode)
    (pre post : List TreeNode) (nk : TreeNode) (s e : Time) (cerr : String)
    (h1 : env.updateStatus ReplayStatusInProgress ReplayMessage.empty = none)
    (h2 : env.getByID = .ok spec)
    (h3 : spec.executionTree = some tree)
    (h4 : tree.getAllNodes = pre ++ nk :: post)
    (h5 : ∀ n ∈ pre, clearSucceeds env spec.job.project n)
    (h6 : nk.runRange = some (s, e))
    (h7 : env.clear spec.job.project nk.getName s e = some cerr) :
    (ReplayStatusFailed, failMessage (wrapClear cerr nk.getName)) ∈ (Process env).statusUpdates ∧
    (failMessage (wrapClear cerr nk.getName)).type_ = AirflowClearDagRunFailed ∧
    ∃ a b, (failMessage (wrapClear cerr nk.getName)).message = a ++ nk.getName ++ b := by
  refine ⟨?_, rfl, "error while clearing dag runs for job ", ": " ++ cerr, ?_⟩
  · cases hu : env.updateStatus ReplayStatusFailed (failMessage (wrapClear cerr nk.getName)) with
    | none =>
      have hloop : processNodes env spec.job.project tree.getAllNodes =
          (pre.map (callOf spec.job.project) ++
            [{ project := spec.job.project, jobName := nk.getName, startTime := s, endTime := e }],
           [(ReplayStatusFailed, failMessage (wrapClear cerr nk.getName))],
           .err (wrapClear cerr nk.getName)) := by
        rw [h4, processNodes_ok_append env spec.job.project pre (nk :: post) h5,
          processNodes_fail_updOk env spec.job.project nk post s e cerr h6 h7 hu]
      rw [Process_loop_other h1 h2 h3 hloop (by simp)]
      simp
    | some uerr =>
      have hloop : processNodes env spec.job.project tree.getAllNodes =
          (pre.map (callOf spec.job.project) ++
            [{ project := spec.job.project, jobName := nk.getName, startTime := s, endTime := e }],
           [(ReplayStatusFailed, failMessage (wrapClear cerr nk.getName))],
           .err uerr) := by
        rw [h4, processNodes_ok_append env spec.job.project pre (nk :: post) h5,
          processNodes_fail_updErr env spec.job.project nk post s e cerr uerr h6 h7 hu]
      rw [Process_loop_other h1 h2 h3 hloop (by simp)]
      simp
  · simp [failMessage, wrapClear, String.append_assoc]

/-- Witness for the amended C7 at the fixture where the clear of
"transform" fails. -/
theorem C7_failure_message_kind_witness :
    (ReplayStatusFailed, failMessage (wrapClear "boom" (TreeNode.getName nodeTransform))) ∈
      (Process envTransformFails).statusUpdates ∧
    (failMessage (wrapClear "boom" (TreeNode.getName nodeTransform))).type_ =
      AirflowClearDagRunFailed :=
  have h := C7_failure_message_kind envTransformFails specB nodeIngest [nodeIngest] []
    nodeTransform 10 20 "boom" rfl rfl rfl (by rw [getAllNodes_fixture]; rfl)
    (by
      intro n hn
      have hn' : n = nodeIngest := by simpa using hn
      exact hn' ▸ ⟨10, 20, by decide, rfl⟩)
    (by decide) rfl
  ⟨h.1, h.2.1⟩

/-- C8: for a node whose run list is the non-empty ascending sequence `l`,
the worker's computed run range — the pair passed to the scheduler's
`Clear` — is exactly the first and last elements of `l`, and the clear call
recorded for the node carries exactly those bounds. -/
theorem C8_run_range_first_last (env : Env) (project : String) (node : TreeNode)
    (rest : List TreeNode) (l : List Time) (hruns : node.runs = l) (hne : l ≠ [])
    (_hsort : sortedStrict l = true) :
    node.runRange = some (l.head hne, l.getLast hne) ∧
    (processNodes env project (node :: rest)).1.head? =
      some { project := project, jobName := node.getName,
             startTime := l.head hne, endTime := l.getLast hne } := by
  subst hruns
  refine ⟨runRange_eq_of_ne_nil hne, ?_⟩
  rw [processNodes, runRange_eq_of_ne_nil hne]
  cases hcl : env.clear project node.getName (node.runs.head hne) (node.runs.getLast hne) with
  | none => simp [hcl]
  | some cerr =>
    cases hu : env.updateStatus ReplayStatusFailed (failMessage (wrapClear cerr node.getName)) with
    | none => simp [hcl, hu]
    | some uerr => simp [hcl, hu]

/-- Witness for C8 at the fixture root node with runs 10 and 20. -/
theorem C8_run_range_first_last_witness :
    nodeIngest.runRange = some (10, 20) ∧
    (processNodes envAllOk "projA" [nodeIngest]).1.head? =
      some { project := "projA", jobName := "ingest", startTime := 10, endTime := 20 } := by
  have h := C8_run_range_first_last envAllOk "projA" nodeIngest [] [10, 20]
    rfl (by simp) (by decide)
  exact h

/-- C9: under the precondition that every node of the replay's execution
tree has a non-empty run list, the index accesses `runTimes[0]` and
`runTimes[Runs.Size()-1]` inside `Process` are always in bounds — the run
range of every flattened node is defined and the out-of-range fault is
unreachable. -/
theorem C9_index_accesses_in_bounds (env : Env)
    (h : ∀ spec tree, env.getByID = .ok spec → spec.executionTree = some tree →
         ∀ n ∈ tree.getAllNodes, n.runs ≠ []) :
    (∀ spec tree, env.getByID = .ok spec → spec.executionTree = some tree →
       ∀ n ∈ tree.getAllNodes, n.runRange.isSome = true) ∧
    (Process env).result ≠ .oobCrash := by
  constructor
  · intro spec tree h2 h3 n hn
    rw [runRange_eq_of_ne_nil (h spec tree h2 h3 n hn)]
    rfl
  · rw [Process]
    cases h1 : env.updateStatus ReplayStatusInProgress ReplayMessage.empty with
    | some e => simp only [h1]; simp
    | none =>
      simp only [h1]
      cases h2 : env.getByID with
      | error e => simp only [h2]; simp
      | ok spec =>
        simp only [h2]
        cases h3 : spec.executionTree with
        | none => simp only [h3]; simp
        | some tree =>
          simp only [h3]
          have hno := processNodes_no_oob env spec.job.project tree.getAllNodes (h spec tree h2 h3)
          rcases hpn : processNodes env spec.job.project tree.getAllNodes with ⟨calls, upds, res⟩
          rw [hpn] at hno
          simp only [hpn]
          cases res with
          | ok =>
            cases h4 : env.updateStatus ReplayStatusReplayed ReplayMessage.empty with
            | none => simp [h4]
            | some e2 => simp [h4]
          | err e2 => simp
          | oobCrash => exact absurd rfl hno
          | nilCrash => simp

/-- Witness for C9 at the all-success fixture environment. -/
theorem C9_index_accesses_in_bounds_witness :
    (Process envAllOk).result ≠ .oobCrash := by
  have h := C9_index_accesses_in_bounds envAllOk ?hn
  · exact h.2
  case hn =>
    intro spec tree h2 h3 n hn
    have h2' : Except.ok specB = Except.ok spec := h2
    obtain rfl : specB = spec := Except.ok.inj h2'
    have h3' : some nodeIngest = some tree := h3
    obtain rfl : nodeIngest = tree := Option.some.inj h3'
    rw [getAllNodes_fixture] at hn
    simp only [List.mem_cons, List.not_mem_nil, or_false] at hn
    rcases hn with h | h
    · exact h ▸ (by decide)
    · exact h ▸ (by decide)

/-- C10: for every node of the flattened execution tree — including every
transitive dependent — `Process` passes the root job's project
(`replaySpec.Job.Project`) as the project argument of the scheduler's
`Clear` call, never a project taken from the node itself. -/
theorem C10_project_is_root_project (env : Env) (spec : ReplaySpec)
    (h2 : env.getByID = .ok spec) :
    ∀ c ∈ (Process env).clearCalls, c.project = spec.job.project := by
  rw [Process]
  cases h1 : env.updateStatus ReplayStatusInProgress ReplayMessage.empty with
  | some e => simp only [h1]; simp
  | none =>
    simp only [h1, h2]
    cases h3 : spec.executionTree with
    | none => simp only [h3]; simp
    | some tree =>
      simp only [h3]
      have hp := processNodes_project env spec.job.project
      rcases hpn : processNodes env spec.job.project tree.getAllNodes with ⟨calls, upds, res⟩
      have hp' : ∀ c ∈ calls, c.project = spec.job.project := by
        intro c hc
        exact hp tree.getAllNodes c (by rw [hpn]; exact hc)
      simp only [hpn]
      cases res with
      | ok =>
        cases h4 : env.updateStatus ReplayStatusReplayed ReplayMessage.empty with
        | none => simp only [h4]; exact hp'
        | some e2 => simp only [h4]; exact hp'
      | err e2 => exact hp'
      | oobCrash => exact hp'
      | nilCrash => exact hp'

/-- Witness for C10 at the all-success fixture environment. -/
theorem C10_project_is_root_project_witness :
    ((Process envAllOk).clearCalls.all
      fun c => decide (c.project = specB.job.project)) = true := by
  have h := C10_project_is_root_project envAllOk specB rfl
  rw [List.all_eq_true]
  intro c hc
  exact decide_eq_true (h c hc)

/-- C6: the claim that `GetByID` (via `ToSpec`) fails on a corrupt stored
payload is violated by the code for the message payload: at a row whose
message blob is corrupt, `ToSpec` returns a zero replay spec together with
a nil error, and `GetByID` therefore reports success instead of an
error. -/
theorem C6_corrupt_message_not_an_error :
    rowCorruptMessage.toSpec jobIngest = .ok ReplaySpec.zero ∧
    getByID repoEnvCorruptMessage = .ok ReplaySpec.zero := by
  constructor <;> rfl

end Optimus
